import Mathlib

/-!
# StepsForm wizard — verification development

Shallow embedding of the orchestration state machine of
`src/packages/form/src/layouts/StepsForm/index.tsx`: step registration and
deregistration, the step cursor, per-step data aggregation, and the final
submission pipeline.  Field values are modelled as opaque natural numbers;
JavaScript objects and `Map`s are modelled as association lists with JS
insertion-order semantics (`set` on an existing key updates in place,
otherwise appends; `delete` removes the entry keeping the others in order).
-/

namespace StepsForm

/-- A step's validated field values: a flat record of field name / value
pairs (JS object with opaque values). -/
abbrev Rec := List (String × Nat)

/-- JS `Map.has` / first-key lookup on an association list. -/
def mapHas {α : Type} (m : List (String × α)) (k : String) : Bool :=
  match m with
  | [] => false
  | p :: rest => p.1 == k || mapHas rest k

/-- JS `Map.get` (as `Option`). -/
def mapGet {α : Type} (m : List (String × α)) (k : String) : Option α :=
  match m with
  | [] => none
  | p :: rest => if p.1 == k then some p.2 else mapGet rest k

/-- JS `Map.set`: update the existing entry in place (keeping its position
in insertion order), or append a new entry at the end. -/
def mapSet {α : Type} (m : List (String × α)) (k : String) (v : α) :
    List (String × α) :=
  match m with
  | [] => [(k, v)]
  | p :: rest => if p.1 == k then (k, v) :: rest else p :: mapSet rest k v

/-- JS `Map.delete`: remove the entry for `k`, keeping the other entries in
order. -/
def mapDelete {α : Type} (m : List (String × α)) (k : String) :
    List (String × α) :=
  m.filter (fun p => !(p.1 == k))

/-- Modelled from the spec: the merge primitive (`merge` from
`@ant-design/pro-utils`, whose source lies outside this repository slice) —
"shallow merge, last-wins": fields of `b` override fields of `a` on key
collision. -/
def mergeRec (a b : Rec) : Rec :=
  b.foldl (fun acc p => mapSet acc p.1 p.2) a

/-- `merge({}, ...values)`: fold the records together left to right,
last-wins. -/
def mergeAll (vs : List Rec) : Rec :=
  vs.foldl mergeRec []

/-- The wizard's orchestration state:
* `formArray`  — the React state `formArray` (ordered list of registered
  step names, as appended by `regForm` / filtered by `unRegForm`);
* `formMap`    — `formMapRef.current : Map<string, StepFormProps>`, the
  per-step configuration (configs are opaque, modelled as `Nat`);
* `formData`   — `formDataRef.current : Map<string, Record<string, any>>`,
  the aggregated per-step data;
* `forms`      — the field contents of the mounted sub-form instances held
  in `formArrayRef.current` (each ref modelled as present);
* `step`       — the cursor `step`;
* `loading`    — the submitting flag `loading`. -/
structure WizardState where
  formArray : List String
  formMap : List (String × Nat)
  formData : List (String × Rec)
  forms : List Rec
  step : Nat
  loading : Bool
deriving DecidableEq, Repr

/-- The freshly mounted wizard: no steps, cursor 0, not submitting. -/
def initState : WizardState :=
  { formArray := [], formMap := [], formData := [], forms := []
    step := 0, loading := false }

/-- `lastStep = step === formArray.length - 1` (false on an empty list,
as in JS where it compares `step === -1`). -/
def lastStep (s : WizardState) : Bool :=
  s.step + 1 == s.formArray.length

/-- Embeds `regForm` (lines 129–134): append the name to `formArray` only
when `formMapRef` does not yet have it, then store the config. -/
def regForm (s : WizardState) (name : String) (cfg : Nat) : WizardState :=
  { s with
    formArray :=
      if mapHas s.formMap name then s.formArray else s.formArray ++ [name]
    formMap := mapSet s.formMap name cfg }

/-- Embeds `unRegForm` (lines 139–143), faithfully including its filter
predicate `(n) => n === name` — which KEEPS only the entries equal to
`name` — and the deletions from `formMapRef` and `formDataRef`. -/
def unRegForm (s : WizardState) (name : String) : WizardState :=
  { s with
    formArray := s.formArray.filter (fun n => n == name)
    formMap := mapDelete s.formMap name
    formData := mapDelete s.formData name }

/-- Embeds `prePage` (lines 208–211): `if (step < 1) return; setStep(step-1)`. -/
def prePage (s : WizardState) : WizardState :=
  if s.step < 1 then s else { s with step := s.step - 1 }

/-- Embeds `nextPage` (lines 279–282):
`if (step > formArray.length - 2) return; setStep(step+1)` — the comparison
is over JS numbers, hence over `Int` here. -/
def nextPage (s : WizardState) : WizardState :=
  if (s.step : Int) > (s.formArray.length : Int) - 2 then s
  else { s with step := s.step + 1 }

/-- Outcome of the user-supplied `onFinish` handler once its promise
settles: it resolves with a truthy (`ok true`) or falsy (`ok false`) value,
or it rejects / throws (`thrown`). -/
inductive HandlerOutcome where
  | ok (b : Bool)
  | thrown
deriving DecidableEq, Repr

/-- What one call of the submission pipeline produced: the new wizard
state, the merged record the handler was invoked with (if it was invoked),
and whether an error was logged (`console.log(error)` in the catch block).
The function is total: a thrown handler never propagates past it. -/
structure FinishResult where
  state : WizardState
  invoked : Option Rec
  logged : Bool
deriving DecidableEq, Repr

/-- Embeds `onFormFinish` (lines 158–181).  Stores the finishing step's
data, returns early unless this is the last step and a handler is
configured; otherwise sets the submitting flag, merges every aggregated
record in `Map` iteration order, invokes the handler, on a truthy result
resets the cursor to 0 and resets every sub-form's fields, on a thrown
error logs it, and finally clears the submitting flag. -/
def onFormFinish (onFinish : Option (Rec → HandlerOutcome))
    (s : WizardState) (name : String) (formData : Rec) : FinishResult :=
  let s1 := { s with formData := mapSet s.formData name formData }
  match onFinish with
  | none => { state := s1, invoked := none, logged := false }
  | some h =>
    if !(lastStep s1) then { state := s1, invoked := none, logged := false }
    else
      let s2 := { s1 with loading := true }
      let values := mergeAll (s2.formData.map Prod.snd)
      match h values with
      | .ok true =>
        { state :=
            { s2 with
              step := 0
              forms := s2.forms.map (fun _ => ([] : Rec))
              loading := false }
          invoked := some values, logged := false }
      | .ok false =>
        { state := { s2 with loading := false }
          invoked := some values, logged := false }
      | .thrown =>
        { state := { s2 with loading := false }
          invoked := some values, logged := true }

/-- The navigation buttons `getActionButton` can return. -/
inductive ActionBtn where
  | pre
  | next
  | submit
deriving DecidableEq, Repr

/-- Embeds `getActionButton` (lines 268–277): `index < 1` is checked first,
then `index + 1 === formArray.length`. -/
def getActionButton (s : WizardState) : List ActionBtn :=
  let index := s.step
  if index < 1 then [ActionBtn.next]
  else if index + 1 == s.formArray.length then [ActionBtn.pre, ActionBtn.submit]
  else [ActionBtn.pre, ActionBtn.next]

/-- The merge described by the claim's words (for comparison with the
code): combine the AggregatedData entries in REGISTRATION order of the
steps, later-registered overriding earlier-registered. -/
def mergeByRegistration (s : WizardState) : Rec :=
  mergeAll (s.formArray.filterMap (fun n => mapGet s.formData n))

/-- A navigation request: the "previous" trigger (`prePage`) or the
"next" trigger (`nextPage`). -/
inductive NavOp where
  | pre
  | next
deriving DecidableEq, Repr

/-- Apply one navigation request. -/
def navStep (s : WizardState) (op : NavOp) : WizardState :=
  match op with
  | .pre => prePage s
  | .next => nextPage s

/-- Apply a sequence of navigation requests in order. -/
def navRun (s : WizardState) (ops : List NavOp) : WizardState :=
  ops.foldl navStep s

/-- The cursor invariant: `step` is a valid index into `formArray`,
or 0 when the list is empty. -/
def navInvariant (s : WizardState) : Prop :=
  s.step = 0 ∨ s.step + 1 ≤ s.formArray.length

/-- A wizard with one registered step, sitting on it (its only step is both
first and last). -/
def oneStepState : WizardState :=
  { formArray := ["a"], formMap := [("a", 0)], formData := []
    forms := [[]], step := 0, loading := false }

/-- The one-step wizard with one field entered in its mounted sub-form. -/
def oneStepFilled : WizardState :=
  { oneStepState with forms := [[("x", 5)]] }

/-- A wizard with two registered steps "A" and "B" (in that registration
order), cursor on step 0, nothing aggregated yet. -/
def twoStepState : WizardState :=
  regForm (regForm initState "A" 10) "B" 11

/-- A wizard with three registered steps, one aggregated record per step,
cursor on step 0. -/
def threeStepState : WizardState :=
  { formArray := ["a", "b", "c"]
    formMap := [("a", 0), ("b", 1), ("c", 2)]
    formData := [("a", [("x", 1)]), ("b", [("y", 2)]), ("c", [("z", 3)])]
    forms := [[], [], []]
    step := 0, loading := false }

/-! ## Small-step event machine

The submission handler is the wizard's only suspension point, so the
pipeline is split at the `await`: `beginFinish` is the synchronous prefix
of `onFormFinish` (store data, check last step / handler, raise the
submitting flag, start the handler) and `settleWiz` is the continuation
that runs when the handler's promise settles.  `pending` records that a
handler invocation is outstanding and `invocations` counts how many were
ever started. -/

/-- Machine state: the wizard state plus the pending-submission bookkeeping. -/
structure MachineState where
  wiz : WizardState
  pending : Bool
  invocations : Nat
deriving DecidableEq, Repr

/-- The discrete events the wizard reacts to: steps mounting and
unmounting, a "previous" click, a "next"/"submit" click whose form
validates with `data`, and the settlement of the outstanding handler. -/
inductive Event where
  | reg (name : String) (cfg : Nat)
  | unreg (name : String)
  | clickPre
  | clickNextOrSubmit (data : Rec)
  | settle (outcome : HandlerOutcome)
deriving DecidableEq, Repr

/-- The synchronous prefix of `onFormFinish` (lines 158–167): store the
data; when this is the last step and a handler is configured, set the
submitting flag and start a handler invocation. -/
def beginFinish (hasFinish : Bool) (m : MachineState) (name : String)
    (d : Rec) : MachineState :=
  let s1 := { m.wiz with formData := mapSet m.wiz.formData name d }
  if hasFinish && lastStep s1 then
    { wiz := { s1 with loading := true }, pending := true
      invocations := m.invocations + 1 }
  else { m with wiz := s1 }

/-- The continuation of `onFormFinish` after the `await` (lines 169–178):
on a truthy result reset the cursor and every sub-form's fields; always
clear the submitting flag (the `finally` block). -/
def settleWiz (s : WizardState) (o : HandlerOutcome) : WizardState :=
  match o with
  | .ok true =>
    { s with
      step := 0
      forms := s.forms.map (fun _ => ([] : Rec))
      loading := false }
  | .ok false => { s with loading := false }
  | .thrown => { s with loading := false }

/-- One machine transition.  Modelled from the spec: the "next"/"submit"
buttons receive the submitting flag and ignore clicks while it is set (the
button widget's implementation is outside this repository slice); the
"previous" button is NOT given the flag, matching the source, so it stays
clickable.  A click submits the active step's form, which on validation
reports its data through `beginFinish` under the active step's name. -/
def stepE (hasFinish : Bool) (m : MachineState) (e : Event) : MachineState :=
  match e with
  | .reg n c => { m with wiz := regForm m.wiz n c }
  | .unreg n => { m with wiz := unRegForm m.wiz n }
  | .clickPre => { m with wiz := prePage m.wiz }
  | .clickNextOrSubmit d =>
    if m.wiz.loading then m
    else beginFinish hasFinish m (m.wiz.formArray.getD m.wiz.step "") d
  | .settle o =>
    if m.pending then
      { wiz := settleWiz m.wiz o, pending := false
        invocations := m.invocations }
    else m

/-- The machine's initial state. -/
def initMachine : MachineState :=
  { wiz := initState, pending := false, invocations := 0 }

/-- Run the machine on a trace of events from the initial state. -/
def runE (hasFinish : Bool) (tr : List Event) : MachineState :=
  tr.foldl (stepE hasFinish) initMachine

/-- A handler that always resolves truthy, for the concrete scenarios. -/
def okHandler : Rec → HandlerOutcome := fun _ => HandlerOutcome.ok true

/-- C4 scenario: in the two-step wizard, step "B" finishes first (through
its own submit flow, cursor still on step 0), then the cursor advances and
step "A" finishes on the last step, triggering the merge.  The
AggregatedData insertion order is then B before A, the reverse of the
registration order. -/
def outOfOrderFinish : FinishResult :=
  let r1 := onFormFinish (some okHandler) twoStepState "B"
    [("x", 2), ("y", 3)]
  onFormFinish (some okHandler) (nextPage r1.state) "A" [("x", 1)]

/-- C10 scenario: "A" finishes, "B" finishes, "A" finishes AGAIN (all with
the cursor on step 0), then the cursor advances and "B" finishes on the
last step, triggering the merge.  "A" keeps its original first position in
the aggregation order even though its latest finish is the most recent. -/
def refinishScenario : FinishResult :=
  let r1 := onFormFinish (some okHandler) twoStepState "A" [("x", 1)]
  let r2 := onFormFinish (some okHandler) r1.state "B" [("x", 2), ("y", 3)]
  let r3 := onFormFinish (some okHandler) r2.state "A" [("x", 9)]
  onFormFinish (some okHandler) (nextPage r3.state) "B" [("x", 2), ("y", 3)]

/-- The machine invariant tying the bookkeeping to the submitting flag:
whenever a handler invocation is outstanding, the submitting flag is up. -/
def pendingInv (m : MachineState) : Prop :=
  m.pending = true → m.wiz.loading = true

/-- A trace that leaves a handler invocation outstanding: one step is
registered and the "next"/"submit" button is clicked on it (the last
step), starting the final submission. -/
def pendingTrace : List Event :=
  [Event.reg "a" 0, Event.clickNextOrSubmit [("x", 1)]]

/-! ## Association-list (`Map`) lemmas -/

theorem mapHas_mapSet_self {α : Type} (m : List (String × α)) (k : String)
    (v : α) : mapHas (mapSet m k v) k = true := by
  induction m with
  | nil => simp [mapSet, mapHas]
  | cons p rest ih =>
    by_cases h : p.1 = k
    · simp [mapSet, mapHas, h]
    · simp only [mapSet, mapHas, beq_iff_eq, h, if_false]
      simp [mapHas, h, ih]

theorem mapGet_mapSet_self {α : Type} (m : List (String × α)) (k : String)
    (v : α) : mapGet (mapSet m k v) k = some v := by
  induction m with
  | nil => simp [mapSet, mapGet]
  | cons p rest ih =>
    by_cases h : p.1 = k
    · simp [mapSet, mapGet, h]
    · simp [mapSet, mapGet, h, ih]

theorem mapGet_mapSet_ne {α : Type} (m : List (String × α)) (k k' : String)
    (v : α) (hne : k' ≠ k) : mapGet (mapSet m k v) k' = mapGet m k' := by
  have hkk : ¬(k = k') := fun h => hne h.symm
  induction m with
  | nil => simp [mapSet, mapGet, hkk]
  | cons p rest ih =>
    by_cases h : p.1 = k
    · subst h
      simp [mapSet, mapGet, hkk]
    · by_cases h' : p.1 = k'
      · simp [mapSet, mapGet, h, h', hne]
      · simp [mapSet, mapGet, h, h', ih]

theorem keys_mapSet_of_mapHas {α : Type} (m : List (String × α))
    (k : String) (v : α) (h : mapHas m k = true) :
    (mapSet m k v).map Prod.fst = m.map Prod.fst := by
  induction m with
  | nil => simp [mapHas] at h
  | cons p rest ih =>
    by_cases hp : p.1 = k
    · simp [mapSet, hp]
    · have h' : mapHas rest k = true := by simpa [mapHas, hp] using h
      simp [mapSet, hp, ih h']

/-! ## Navigation lemmas -/

theorem navStep_formArray (s : WizardState) (op : NavOp) :
    (navStep s op).formArray = s.formArray := by
  cases op <;> simp only [navStep, prePage, nextPage] <;> split <;> rfl

theorem navInvariant_navStep (s : WizardState) (op : NavOp)
    (h : navInvariant s) : navInvariant (navStep s op) := by
  unfold navInvariant at h ⊢
  cases op
  · unfold navStep prePage
    by_cases hs : s.step < 1
    · rw [if_pos hs]; exact h
    · rw [if_neg hs]
      show s.step - 1 = 0 ∨ s.step - 1 + 1 ≤ s.formArray.length
      omega
  · unfold navStep nextPage
    by_cases hs : (s.step : Int) > (s.formArray.length : Int) - 2
    · rw [if_pos hs]; exact h
    · rw [if_neg hs]
      show s.step + 1 = 0 ∨ s.step + 1 + 1 ≤ s.formArray.length
      omega

theorem navInvariant_navRun (s : WizardState) (ops : List NavOp)
    (h : navInvariant s) : navInvariant (navRun s ops) := by
  induction ops generalizing s with
  | nil => exact h
  | cons op rest ih => exact ih (navStep s op) (navInvariant_navStep s op h)

theorem navRun_formArray (s : WizardState) (ops : List NavOp) :
    (navRun s ops).formArray = s.formArray := by
  induction ops generalizing s with
  | nil => rfl
  | cons op rest ih => rw [navRun, List.foldl_cons, ← navRun, ih,
      navStep_formArray]

/-! ## Claim theorems -/

/-- C3: `unRegForm` is meant to remove exactly the given name from the
ordered step-name list, leaving the other steps untouched (its own comment
says the step count drops by one).  The code's filter predicate
`(n) => n === name` does the opposite to the step list: deregistering "b"
from the three-step wizard leaves `formArray = ["b"]` instead of
`["a", "c"]`, while the `formMap`/`formData` deletions are as described. -/
theorem unRegForm_corrupts_formArray :
    (unRegForm threeStepState "b").formArray = ["b"] ∧
    (unRegForm threeStepState "b").formArray ≠ ["a", "c"] ∧
    mapGet (unRegForm threeStepState "b").formData "b" = none ∧
    mapGet (unRegForm threeStepState "b").formData "a" = some [("x", 1)] ∧
    mapGet (unRegForm threeStepState "b").formData "c" = some [("z", 3)] ∧
    mapGet (unRegForm threeStepState "b").formMap "b" = none := by
  decide

/-- C5: starting from any state whose cursor is in bounds, every sequence
of `prePage`/`nextPage` requests keeps the cursor a valid index into the
(unchanged) step list — or 0 when the list is empty — each single request
moves the cursor by at most one, `nextPage` at the last step (or beyond)
is a silent no-op (hence idempotent), and `prePage` at index 0 is a silent
no-op. -/
theorem nav_cursor_invariant (s : WizardState) (ops : List NavOp)
    (h : navInvariant s) :
    navInvariant (navRun s ops) ∧
    (navRun s ops).formArray = s.formArray ∧
    (∀ op : NavOp, (navStep s op).step ≤ s.step + 1 ∧
      s.step ≤ (navStep s op).step + 1) ∧
    (s.formArray.length ≤ s.step + 1 → nextPage s = s) ∧
    (s.step = 0 → prePage s = s) := by
  refine ⟨navInvariant_navRun s ops h, navRun_formArray s ops, ?_, ?_, ?_⟩
  · intro op
    cases op
    · unfold navStep prePage
      by_cases hs : s.step < 1
      · rw [if_pos hs]
        show s.step ≤ s.step + 1 ∧ s.step ≤ s.step + 1
        omega
      · rw [if_neg hs]
        constructor
        · show s.step - 1 ≤ s.step + 1
          omega
        · show s.step ≤ s.step - 1 + 1
          omega
    · unfold navStep nextPage
      by_cases hs : (s.step : Int) > (s.formArray.length : Int) - 2
      · rw [if_pos hs]
        show s.step ≤ s.step + 1 ∧ s.step ≤ s.step + 1
        omega
      · rw [if_neg hs]
        constructor
        · show s.step + 1 ≤ s.step + 1
          omega
        · show s.step ≤ s.step + 1 + 1
          omega
  · intro hlen
    unfold nextPage
    rw [if_pos]
    omega
  · intro h0
    unfold prePage
    rw [if_pos]
    omega

/-- Witness for C5 at a concrete state and trace. -/
theorem nav_cursor_invariant_witness :
    navInvariant
      (navRun threeStepState [NavOp.next, NavOp.next, NavOp.next, NavOp.pre]) ∧
    nextPage { threeStepState with step := 2 } =
      { threeStepState with step := 2 } ∧
    prePage threeStepState = threeStepState :=
  ⟨(nav_cursor_invariant threeStepState
      [NavOp.next, NavOp.next, NavOp.next, NavOp.pre] (Or.inl rfl)).1,
   (nav_cursor_invariant { threeStepState with step := 2 } []
      (Or.inr (by decide))).2.2.2.1 (by decide),
   (nav_cursor_invariant threeStepState [] (Or.inl rfl)).2.2.2.2 rfl⟩

/-- C6: registering an already-registered name again leaves the ordered
step list (hence `stepCount` and the name's position) entirely unchanged,
stores the latest config under the name, and leaves every other name's
config untouched. -/
theorem regForm_idempotent (s : WizardState) (name : String) (c1 c2 : Nat) :
    (regForm (regForm s name c1) name c2).formArray =
      (regForm s name c1).formArray ∧
    mapGet (regForm (regForm s name c1) name c2).formMap name = some c2 ∧
    (∀ k : String, k ≠ name →
      mapGet (regForm (regForm s name c1) name c2).formMap k =
        mapGet (regForm s name c1).formMap k) := by
  refine ⟨?_, ?_, ?_⟩
  · simp [regForm, mapHas_mapSet_self]
  · simp [regForm, mapGet_mapSet_self]
  · intro k hk
    simp [regForm, mapGet_mapSet_ne _ _ _ _ hk]

/-- Witness for C6 at a concrete double registration. -/
theorem regForm_idempotent_witness :
    (regForm (regForm initState "a" 1) "a" 2).formArray =
      (regForm initState "a" 1).formArray ∧
    mapGet (regForm (regForm initState "a" 1) "a" 2).formMap "a" = some 2 ∧
    mapGet (regForm (regForm initState "a" 1) "a" 2).formMap "b" =
      mapGet (regForm initState "a" 1).formMap "b" :=
  ⟨(regForm_idempotent initState "a" 1 2).1,
   (regForm_idempotent initState "a" 1 2).2.1,
   (regForm_idempotent initState "a" 1 2).2.2 "b" (by decide)⟩

/-- C7: when the current step is not the last one, or no final handler is
configured, `onFormFinish` only stores the data under the name and does
nothing else: cursor, submitting flag, sub-form fields and registry are
untouched, the handler is not invoked, and nothing is logged. -/
theorem onFormFinish_frame (fin : Option (Rec → HandlerOutcome))
    (s : WizardState) (name : String) (d : Rec)
    (h : lastStep s = false ∨ fin = none) :
    onFormFinish fin s name d =
      { state := { s with formData := mapSet s.formData name d }
        invoked := none, logged := false } := by
  rcases h with h | h
  · cases fin with
    | none => rfl
    | some f =>
      have hls : lastStep { s with formData := mapSet s.formData name d } =
          false := by simpa [lastStep] using h
      simp [onFormFinish, hls]
  · subst h
    rfl

/-- Witness for C7: finishing step "A" of the two-step wizard while the
cursor is on step 0 (not the last step) stores the data and nothing more,
even with a handler configured. -/
theorem onFormFinish_frame_witness :
    onFormFinish (some (fun _ => HandlerOutcome.ok true)) twoStepState
        "A" [("x", 1)] =
      { state :=
          { twoStepState with
            formData := mapSet twoStepState.formData "A" [("x", 1)] }
        invoked := none, logged := false } :=
  onFormFinish_frame (some (fun _ => HandlerOutcome.ok true)) twoStepState
    "A" [("x", 1)] (Or.inl (by decide))

/-- C8 counterexample: in a one-step wizard the only step is both first and
last, and the claim says it shows "previous" + "submit"; the code checks
`index < 1` first, so it shows only "next". -/
theorem getActionButton_oneStep :
    getActionButton oneStepState = [ActionBtn.next] ∧
    getActionButton oneStepState ≠ [ActionBtn.pre, ActionBtn.submit] := by
  decide

/-- C8 amended: the buttons are a pure function of the cursor and the step
count, with the first-step case taking precedence: index 0 always shows
only "next" (even when it is also the last step); an index ≥ 1 equal to
`stepCount - 1` shows "previous" + "submit"; any other index ≥ 1 shows
"previous" + "next". -/
theorem getActionButton_cases (s : WizardState) :
    (s.step = 0 → getActionButton s = [ActionBtn.next]) ∧
    (s.step ≠ 0 → s.step + 1 = s.formArray.length →
      getActionButton s = [ActionBtn.pre, ActionBtn.submit]) ∧
    (s.step ≠ 0 → s.step + 1 ≠ s.formArray.length →
      getActionButton s = [ActionBtn.pre, ActionBtn.next]) := by
  refine ⟨fun h0 => ?_, fun h0 hlen => ?_, fun h0 hlen => ?_⟩
  · simp [getActionButton, h0]
  · simp [getActionButton, h0, hlen, Nat.pos_of_ne_zero h0]
  · simp [getActionButton, h0, hlen, Nat.pos_of_ne_zero h0]

/-- Witness for C8 at the three-step wizard: cursor 2 (last) shows
"previous" + "submit", cursor 1 (intermediate) shows "previous" + "next",
cursor 0 shows only "next". -/
theorem getActionButton_cases_witness :
    getActionButton { threeStepState with step := 2 } =
      [ActionBtn.pre, ActionBtn.submit] ∧
    getActionButton { threeStepState with step := 1 } =
      [ActionBtn.pre, ActionBtn.next] ∧
    getActionButton threeStepState = [ActionBtn.next] :=
  ⟨(getActionButton_cases { threeStepState with step := 2 }).2.1
      (by decide) (by decide),
   (getActionButton_cases { threeStepState with step := 1 }).2.2
      (by decide) (by decide),
   (getActionButton_cases threeStepState).1 rfl⟩

/-- C1 counterexample: a successful final submission on the one-step
wizard resets the cursor to 0 and clears the sub-form's fields, but the
AggregatedData map is NOT cleared — the success branch never touches
`formDataRef`, so the just-stored entry survives. -/
theorem onFormFinish_success_keeps_formData :
    (onFormFinish (some (fun _ => HandlerOutcome.ok true)) oneStepFilled
        "a" [("x", 1)]).state.formData = [("a", [("x", 1)])] ∧
    (onFormFinish (some (fun _ => HandlerOutcome.ok true)) oneStepFilled
        "a" [("x", 1)]).state.formData ≠ [] ∧
    (onFormFinish (some (fun _ => HandlerOutcome.ok true)) oneStepFilled
        "a" [("x", 1)]).state.step = 0 ∧
    (onFormFinish (some (fun _ => HandlerOutcome.ok true)) oneStepFilled
        "a" [("x", 1)]).state.forms = [[]] := by
  decide

/-- C1 amended: when the current step is the last step, a handler is
configured, and the handler resolves truthy on the merged record, the
pipeline resets the cursor to 0, resets every sub-form's fields, and
clears the submitting flag — but AggregatedData keeps all its entries
(including the one just stored); it is not cleared. -/
theorem onFormFinish_success (s : WizardState) (name : String) (d : Rec)
    (f : Rec → HandlerOutcome)
    (hl : lastStep s = true)
    (hf : f (mergeAll ((mapSet s.formData name d).map Prod.snd)) =
      HandlerOutcome.ok true) :
    onFormFinish (some f) s name d =
      { state :=
          { s with
            formData := mapSet s.formData name d
            forms := s.forms.map (fun _ => ([] : Rec))
            step := 0
            loading := false }
        invoked := some (mergeAll ((mapSet s.formData name d).map Prod.snd))
        logged := false } := by
  have hls : lastStep { s with formData := mapSet s.formData name d } =
      true := by simpa [lastStep] using hl
  simp [onFormFinish, hls, hf]

/-- Witness for C1 at the filled one-step wizard. -/
theorem onFormFinish_success_witness :
    onFormFinish (some (fun _ => HandlerOutcome.ok true)) oneStepFilled
        "b" [("y", 2)] =
      { state :=
          { oneStepFilled with
            formData := mapSet oneStepFilled.formData "b" [("y", 2)]
            forms := oneStepFilled.forms.map (fun _ => ([] : Rec))
            step := 0
            loading := false }
        invoked := some
          (mergeAll ((mapSet oneStepFilled.formData "b" [("y", 2)]).map
            Prod.snd))
        logged := false } :=
  onFormFinish_success oneStepFilled "b" [("y", 2)]
    (fun _ => HandlerOutcome.ok true) (by decide) rfl

/-- C2: when the current step is the last step and the configured handler
resolves falsy or throws, the pipeline leaves the cursor on the last step,
keeps every AggregatedData entry (plus the one just stored), keeps the
sub-forms' fields, clears the submitting flag unconditionally (the
`finally` block runs even on a throw), and a thrown error is logged (the
pipeline itself always returns normally — the error never propagates). -/
theorem onFormFinish_failure (s : WizardState) (name : String) (d : Rec)
    (f : Rec → HandlerOutcome)
    (hl : lastStep s = true)
    (hf : f (mergeAll ((mapSet s.formData name d).map Prod.snd)) =
        HandlerOutcome.ok false ∨
      f (mergeAll ((mapSet s.formData name d).map Prod.snd)) =
        HandlerOutcome.thrown) :
    (onFormFinish (some f) s name d).state =
      { s with formData := mapSet s.formData name d, loading := false } ∧
    (onFormFinish (some f) s name d).state.step = s.step ∧
    (onFormFinish (some f) s name d).invoked =
      some (mergeAll ((mapSet s.formData name d).map Prod.snd)) ∧
    ((onFormFinish (some f) s name d).logged = true ↔
      f (mergeAll ((mapSet s.formData name d).map Prod.snd)) =
        HandlerOutcome.thrown) := by
  have hls : lastStep { s with formData := mapSet s.formData name d } =
      true := by simpa [lastStep] using hl
  rcases hf with hf | hf <;> simp [onFormFinish, hls, hf]

/-- Witness for C2: a throwing handler on the one-step wizard leaves the
cursor and data in place, clears the submitting flag, and logs. -/
theorem onFormFinish_failure_witness :
    (onFormFinish (some (fun _ => HandlerOutcome.thrown)) oneStepState
        "a" [("x", 1)]).state =
      { oneStepState with
        formData := mapSet oneStepState.formData "a" [("x", 1)]
        loading := false } ∧
    (onFormFinish (some (fun _ => HandlerOutcome.thrown)) oneStepState
        "a" [("x", 1)]).logged = true :=
  ⟨(onFormFinish_failure oneStepState "a" [("x", 1)]
      (fun _ => HandlerOutcome.thrown) (by decide) (Or.inr rfl)).1,
   (onFormFinish_failure oneStepState "a" [("x", 1)]
      (fun _ => HandlerOutcome.thrown) (by decide) (Or.inr rfl)).2.2.2.mpr
      rfl⟩

/-- Helper: whatever the handler configuration and outcome, one call of
`onFormFinish` leaves the AggregatedData map exactly `Map.set` of the old
one — no branch of the pipeline clears or reorders it. -/
theorem onFormFinish_formData (fin : Option (Rec → HandlerOutcome))
    (s : WizardState) (name : String) (d : Rec) :
    (onFormFinish fin s name d).state.formData = mapSet s.formData name d := by
  cases fin with
  | none => rfl
  | some f =>
    unfold onFormFinish
    by_cases hls : lastStep { s with formData := mapSet s.formData name d } =
        true
    · simp only [hls]
      cases hfv : f (mergeAll ((mapSet s.formData name d).map Prod.snd)) with
      | ok b => cases b <;> simp [hfv]
      | thrown => simp [hfv]
    · have hls' : lastStep
          { s with formData := mapSet s.formData name d } = false := by
        simpa using hls
      simp [hls']

/-- C4 counterexample: with steps registered in order A, B but finishing
in order B, A, the merged record handed to the handler is
`{x:1, y:3}` (AggregatedData insertion order, A's fields winning), not the
`{x:2, y:3}` that merging in registration order (later-registered steps
overriding earlier-registered ones) would give. -/
theorem merge_not_registration_order :
    outOfOrderFinish.invoked = some [("x", 1), ("y", 3)] ∧
    mergeByRegistration outOfOrderFinish.state = [("x", 2), ("y", 3)] ∧
    outOfOrderFinish.invoked ≠
      some (mergeByRegistration outOfOrderFinish.state) := by
  decide

/-- C4 amended: on final submission the merged record is the shallow,
last-wins merge of the AggregatedData entries in Map insertion order (the
order of each step's first finish) — a later-finishing step's fields
override an earlier-finishing one's on key collision; in particular for
steps A = {x:1} and B = {x:2,y:3} finishing in order A then B the merge is
{x:2, y:3}. -/
theorem merge_insertion_order (dA dB : Rec) (o : HandlerOutcome) :
    (onFormFinish (some (fun _ => o))
        (nextPage (onFormFinish (some (fun _ => o)) twoStepState
          "A" dA).state)
        "B" dB).invoked = some (mergeRec (mergeRec [] dA) dB) ∧
    (onFormFinish (some okHandler)
        (nextPage (onFormFinish (some okHandler) twoStepState
          "A" [("x", 1)]).state)
        "B" [("x", 2), ("y", 3)]).invoked =
      some [("x", 2), ("y", 3)] := by
  constructor
  · cases o with
    | ok b => cases b <;> rfl
    | thrown => rfl
  · decide

/-- Helper: every machine transition preserves the pending-implies-loading
invariant.  The only transition that sets `pending` also sets the
submitting flag, and the only one that clears the flag also clears
`pending`. -/
theorem pendingInv_stepE (hf : Bool) (m : MachineState) (e : Event)
    (hm : pendingInv m) : pendingInv (stepE hf m e) := by
  cases e with
  | reg n c => exact hm
  | unreg n => exact hm
  | clickPre =>
    intro hp
    show (prePage m.wiz).loading = true
    unfold prePage
    split
    · exact hm hp
    · exact hm hp
  | clickNextOrSubmit d' =>
    intro hp
    revert hp
    simp only [stepE, beginFinish]
    split_ifs with h1 h2
    · intro _
      exact h1
    · intro _
      rfl
    · intro hp
      exact hm hp
  | settle o =>
    intro hp
    revert hp
    simp only [stepE]
    split_ifs with h1
    · intro hp
      exact hp.elim
    · intro hp
      exact hm hp

/-- Helper: the pending-implies-loading invariant holds along any event
trace from any state satisfying it. -/
theorem pendingInv_foldl (hf : Bool) (tr : List Event) (m : MachineState)
    (hm : pendingInv m) : pendingInv (tr.foldl (stepE hf) m) := by
  induction tr generalizing m with
  | nil => exact hm
  | cons e rest ih => exact ih (stepE hf m e) (pendingInv_stepE hf m e hm)

/-- C9: in the event machine, while a final-submission handler invocation
is outstanding the submitting flag is up (an invariant of every reachable
state), and a "next"/"submit" click in that situation is ignored: the
state is unchanged and no second handler invocation starts. -/
theorem no_reentrant_submission (hf : Bool) (tr : List Event) (d : Rec)
    (h : (runE hf tr).pending = true) :
    stepE hf (runE hf tr) (Event.clickNextOrSubmit d) = runE hf tr ∧
    (stepE hf (runE hf tr) (Event.clickNextOrSubmit d)).invocations =
      (runE hf tr).invocations := by
  have hl : (runE hf tr).wiz.loading = true :=
    pendingInv_foldl hf tr initMachine
      (fun hp => absurd hp Bool.false_ne_true) h
  have heq : stepE hf (runE hf tr) (Event.clickNextOrSubmit d) =
      runE hf tr := by
    simp only [stepE]
    rw [if_pos hl]
  exact ⟨heq, by rw [heq]⟩

/-- Witness for C9: registering one step and clicking "next"/"submit"
leaves an invocation outstanding; a further click is then a no-op. -/
theorem no_reentrant_submission_witness :
    (runE true pendingTrace).pending = true ∧
    stepE true (runE true pendingTrace)
      (Event.clickNextOrSubmit [("y", 2)]) = runE true pendingTrace :=
  ⟨by decide,
   (no_reentrant_submission true pendingTrace [("y", 2)] (by decide)).1⟩

/-- C10: a second finish for a name already present in AggregatedData
overwrites that name's stored record but keeps the name's original
position in the aggregation (Map insertion) order and every other entry
intact; consequently the merge iterates entries in order of each step's
FIRST finish — in the concrete re-finish scenario the merge is
`{x:2, y:3}` (A's slot still first, B overriding), not the `{x:9, y:3}`
that most-recent-finish order would give. -/
theorem onFormFinish_overwrite (fin : Option (Rec → HandlerOutcome))
    (s : WizardState) (name : String) (d : Rec)
    (h : mapHas s.formData name = true) :
    ((onFormFinish fin s name d).state.formData).map Prod.fst =
      s.formData.map Prod.fst ∧
    mapGet (onFormFinish fin s name d).state.formData name = some d ∧
    (∀ k : String, k ≠ name →
      mapGet (onFormFinish fin s name d).state.formData k =
        mapGet s.formData k) ∧
    refinishScenario.invoked = some [("x", 2), ("y", 3)] ∧
    refinishScenario.invoked ≠ some [("x", 9), ("y", 3)] := by
  refine ⟨?_, ?_, ?_, by decide, by decide⟩
  · rw [onFormFinish_formData]
    exact keys_mapSet_of_mapHas s.formData name d h
  · rw [onFormFinish_formData]
    exact mapGet_mapSet_self s.formData name d
  · intro k hk
    rw [onFormFinish_formData]
    exact mapGet_mapSet_ne s.formData name k d hk

/-- Witness for C10: re-finishing "A" in the two-step wizard keeps the key
order and overwrites the value. -/
theorem onFormFinish_overwrite_witness :
    mapHas (onFormFinish (some okHandler) twoStepState "A"
      [("x", 1)]).state.formData "A" = true ∧
    ((onFormFinish (some okHandler)
        (onFormFinish (some okHandler) twoStepState "A"
          [("x", 1)]).state "A" [("x", 9)]).state.formData).map Prod.fst =
      ((onFormFinish (some okHandler) twoStepState "A"
        [("x", 1)]).state.formData).map Prod.fst ∧
    mapGet (onFormFinish (some okHandler)
        (onFormFinish (some okHandler) twoStepState "A"
          [("x", 1)]).state "A" [("x", 9)]).state.formData "A" =
      some [("x", 9)] :=
  ⟨by decide,
   (onFormFinish_overwrite (some okHandler)
      (onFormFinish (some okHandler) twoStepState "A" [("x", 1)]).state
      "A" [("x", 9)] (by decide)).1,
   (onFormFinish_overwrite (some okHandler)
      (onFormFinish (some okHandler) twoStepState "A" [("x", 1)]).state
      "A" [("x", 9)] (by decide)).2.1⟩

end StepsForm
